import Mathlib

/-!
Formal verification of the `logmd` journal tool's core, shallowly embedded
from the Go source.  The embedding covers:

* the `tui` package's browser state machine (`Model`, `Update`,
  `handleKeyPress`, `adjustScroll` from `src/tui/update.go` and
  `src/tui/model.go`),
* the renderer's viewport slicing (`visibleRange`, `View`, `renderEntry`
  from `src/tui/view.go`),
* title/preview extraction (`extractTitleAndPreview` from
  `src/tui/model.go`),
* the `vault` package's store operations (`DatePath`, `EntryExists`,
  `WriteEntry`, `CreateEntry`, `ListEntries`, `isValidDateFormat`).

Go `int` values (cursor, scroll offset, viewport height, preview count) are
modelled as `Int`; the arithmetic involved never approaches the 64-bit
bounds, so unbounded integers are a faithful model.  Go strings are
modelled as Lean `String` values; Go compares strings byte-wise on UTF-8,
which coincides with lexicographic comparison of the code-point sequence
(`String.data`), because UTF-8 encoding is order-preserving.
-/

namespace Logmd

/-! ## Characters and Go-style string helpers -/

/-- The White_Space code points recognised by Go's `unicode.IsSpace`
(`\t`, `\n`, `\v`, `\f`, `\r`, space, U+0085, U+00A0, plus the Unicode
White_Space property code points). -/
def goIsSpace (c : Char) : Bool :=
  c.toNat = 0x9 || c.toNat = 0xA || c.toNat = 0xB || c.toNat = 0xC ||
  c.toNat = 0xD || c.toNat = 0x20 || c.toNat = 0x85 || c.toNat = 0xA0 ||
  c.toNat = 0x1680 || (0x2000 ≤ c.toNat && c.toNat ≤ 0x200A) ||
  c.toNat = 0x2028 || c.toNat = 0x2029 || c.toNat = 0x202F ||
  c.toNat = 0x205F || c.toNat = 0x3000

/-- Go `strings.TrimSpace`: remove leading and trailing white space. -/
def goTrimSpace (s : String) : String :=
  String.mk (((s.data.dropWhile goIsSpace).reverse.dropWhile goIsSpace).reverse)

/-- Go `strings.HasPrefix` (byte comparison on UTF-8 = code-point list). -/
def goHasPre (s pre : String) : Bool :=
  pre.data.isPrefixOf s.data

/-- Go `strings.HasSuffix`: `len(s) >= len(suffix) && s[len(s)-len(suffix):] == suffix`. -/
def goHasSuf (s suf : String) : Bool :=
  decide (suf.data.length ≤ s.data.length) &&
  decide (s.data.drop (s.data.length - suf.data.length) = suf.data)

/-- Go `strings.TrimSuffix`: drop the suffix when present, else unchanged. -/
def goTrimSuf (s suf : String) : String :=
  if goHasSuf s suf then String.mk (s.data.take (s.data.length - suf.data.length))
  else s

/-- Byte-slicing `s[n:]` where the first `n` bytes are known to be ASCII:
drop `n` code points. -/
def goDropChars (s : String) (n : Nat) : String :=
  String.mk (s.data.drop n)

/-- Splitting a character list at every newline, the recursion behind
`goSplitNL`. -/
def splitNLData : List Char → List String
  | [] => [""]
  | c :: cs =>
    let r := splitNLData cs
    if c = '\n' then "" :: r
    else
      match r with
      | [] => [String.mk [c]]
      | h :: t => String.mk (c :: h.data) :: t

/-- Go `strings.Split(content, "\n")`: split at every newline; the empty
string yields `[""]`. -/
def goSplitNL (s : String) : List String :=
  splitNLData s.data

/-- Go byte-wise string comparison `a < b` (lexicographic on the code-point
sequence, which equals Go's byte order on the UTF-8 encodings). -/
def chLess : List Char → List Char → Bool
  | [], [] => false
  | [], _ :: _ => true
  | _ :: _, [] => false
  | a :: as, b :: bs =>
    if a.toNat < b.toNat then true
    else if b.toNat < a.toNat then false
    else chLess as bs

/-- Go string comparison `a < b`. -/
def goLess (a b : String) : Bool := chLess a.data b.data

/-! ## The browser state machine (`src/tui/model.go`, `src/tui/update.go`) -/

/-- `tui.Entry`: one journal entry in the timeline list. -/
structure Entry where
  date : String
  path : String
  title : String
  preview : List String
  expanded : Bool
  deriving Repr, DecidableEq

/-- `tui.Model`: the browser's state.  `cursor`, `viewportHeight` and
`scrollOffset` are Go `int`s, modelled as `Int`. -/
structure Model where
  entries : List Entry
  cursor : Int
  viewportHeight : Int
  scrollOffset : Int
  quitting : Bool
  loading : Bool
  err : Option String
  vaultDir : String
  previewLines : Int
  deriving Repr, DecidableEq

/-- `tui.NewModel`. -/
def NewModel (vaultDir : String) (previewLines : Int) : Model :=
  { entries := [], cursor := 0, viewportHeight := 20, scrollOffset := 0,
    quitting := false, loading := true, err := none,
    vaultDir := vaultDir, previewLines := previewLines }

/-- The key presses `handleKeyPress` distinguishes.  `other` stands for any
key string not matched by a `case` (it falls through with no effect). -/
inductive Key where
  | quit | up | down | toggle | pgup | pgdown | home | ekey | other
  deriving Repr, DecidableEq

/-- The messages `Update` distinguishes: key presses, window resizes
(`tea.WindowSizeMsg`, only the height is used) and `LoadEntriesMsg`. -/
inductive Msg where
  | key (k : Key)
  | windowSize (height : Int)
  | loadEntries (entries : List Entry) (error : Option String)
  deriving Repr, DecidableEq

/-- `Model.adjustScroll` (src/tui/update.go:98-123), statement for
statement: anchor the window to the cursor from above, then from below,
then clamp the offset into `[0, max 0 (len - visibleHeight)]`. -/
def adjustScroll (m : Model) : Model :=
  let visibleHeight := m.viewportHeight - 4
  let s0 := if m.cursor < m.scrollOffset then m.cursor else m.scrollOffset
  let s1 := if m.cursor ≥ s0 + visibleHeight then m.cursor - visibleHeight + 1 else s0
  let s2 := if s1 < 0 then 0 else s1
  let maxScroll0 := (m.entries.length : Int) - visibleHeight
  let maxScroll := if maxScroll0 < 0 then 0 else maxScroll0
  let s3 := if s2 > maxScroll then maxScroll else s2
  { m with scrollOffset := s3 }

/-- Flip the `expanded` flag of the entry at (non-negative) index `c`. -/
def toggleAt (es : List Entry) (c : Int) : List Entry :=
  match es.get? c.toNat with
  | none => es
  | some e => es.set c.toNat { e with expanded := !e.expanded }

/-- `Model.handleKeyPress` (src/tui/update.go:37-94).  With an empty entry
list only quit is honoured; otherwise the cursor moves with the key and the
scroll is re-adjusted, exactly as in the source. -/
def handleKeyPress (m : Model) (k : Key) : Model :=
  if m.entries.length = 0 then
    match k with
    | .quit => { m with quitting := true }
    | .up => m
    | .down => m
    | .toggle => m
    | .pgup => m
    | .pgdown => m
    | .home => m
    | .ekey => m
    | .other => m
  else
    match k with
    | .quit => { m with quitting := true }
    | .up =>
      if m.cursor > 0 then adjustScroll { m with cursor := m.cursor - 1 } else m
    | .down =>
      if m.cursor < (m.entries.length : Int) - 1 then
        adjustScroll { m with cursor := m.cursor + 1 }
      else m
    | .toggle =>
      if m.cursor < (m.entries.length : Int) then
        { m with entries := toggleAt m.entries m.cursor }
      else m
    | .pgup =>
      let c := m.cursor - 10
      adjustScroll { m with cursor := if c < 0 then 0 else c }
    | .pgdown =>
      let c := m.cursor + 10
      adjustScroll
        { m with cursor := if c ≥ (m.entries.length : Int) then (m.entries.length : Int) - 1 else c }
    | .home => adjustScroll { m with cursor := 0 }
    | .ekey => adjustScroll { m with cursor := (m.entries.length : Int) - 1 }
    | .other => m

/-- `Model.Update` (src/tui/update.go:10-32). -/
def update (m : Model) : Msg → Model
  | .key k => handleKeyPress m k
  | .windowSize h => { m with viewportHeight := h - 6 }
  | .loadEntries es e =>
    let m' := { m with loading := false }
    match e with
    | some msg => { m' with err := some msg }
    | none => { m' with entries := es }

/-! ## The scroll invariant (claims C1, C6, C8, C10) -/

/-- The freshly-loaded browser state the claims start from: entries loaded,
cursor and scroll at 0, a fixed viewport height, Ready phase. -/
def initBrowser (es : List Entry) (H : Int) : Model :=
  { entries := es, cursor := 0, viewportHeight := H, scrollOffset := 0,
    quitting := false, loading := false, err := none,
    vaultDir := "", previewLines := 5 }

/-- The navigation events of claim C1: MoveUp, MoveDown, PageUp, PageDown,
Home, End, ToggleExpand. -/
def navKeys : List Key := [.up, .down, .pgup, .pgdown, .home, .ekey, .toggle]

/-- Claim C1's condition on a state: the cursor is visible
(`scrollOffset ≤ cursorIndex < scrollOffset + max 0 (H-4)`) and the scroll
offset is bounded (`scrollOffset ≤ max 0 (N - max 0 (H-4))`). -/
def cursorVisible (N H : Int) (m : Model) : Bool :=
  decide (m.scrollOffset ≤ m.cursor) &&
  decide (m.cursor < m.scrollOffset + max (H - 4) 0) &&
  decide (m.scrollOffset ≤ max (N - max (H - 4) 0) 0)

/-- `afterEachKey P m ks`: the condition `P` holds after each event of the
key sequence `ks` is applied, starting from `m`. -/
def afterEachKey (P : Model → Bool) : Model → List Key → Bool
  | _, [] => true
  | m, k :: ks =>
    let m' := update m (.key k)
    P m' && afterEachKey P m' ks

/-- The inductive invariant of the browser: fixed viewport height and entry
count, cursor in range, cursor visible, scroll bounded. -/
def StateInv (N H : Int) (m : Model) : Prop :=
  m.viewportHeight = H ∧ (m.entries.length : Int) = N ∧
  0 ≤ m.cursor ∧ m.cursor ≤ N - 1 ∧
  0 ≤ m.scrollOffset ∧ m.scrollOffset ≤ m.cursor ∧
  m.cursor < m.scrollOffset + (H - 4) ∧
  m.scrollOffset ≤ max (N - (H - 4)) 0

theorem cursorVisible_of_inv {N H : Int} {m : Model} (h5 : 5 ≤ H)
    (h : StateInv N H m) : cursorVisible N H m = true := by
  obtain ⟨-, -, -, -, -, h1, h2, h3⟩ := h
  simp only [cursorVisible, Bool.and_eq_true, decide_eq_true_eq]
  omega

/-- `adjustScroll` establishes the invariant from any scroll offset, as
long as the cursor is in range and at least one row is visible. -/
theorem adjustScroll_inv {N H : Int} {m : Model}
    (hH : m.viewportHeight = H) (hN : (m.entries.length : Int) = N)
    (h5 : 5 ≤ H) (hc0 : 0 ≤ m.cursor) (hcN : m.cursor ≤ N - 1) :
    StateInv N H (adjustScroll m) := by
  simp only [adjustScroll, StateInv]
  split_ifs <;> simp_all <;> omega

theorem toggleAt_length (es : List Entry) (c : Int) :
    (toggleAt es c).length = es.length := by
  unfold toggleAt
  cases h : es.get? c.toNat <;> simp

/-- Every key event preserves the inductive invariant. -/
theorem step_inv {N H : Int} {m : Model} (k : Key)
    (h5 : 5 ≤ H) (h : StateInv N H m) : StateInv N H (update m (.key k)) := by
  obtain ⟨hH, hlen, hc0, hcN, hs0, hsc, hcv, hsb⟩ := h
  have hN1 : 1 ≤ N := by omega
  have hne : ¬ (m.entries.length = 0) := by omega
  cases k with
  | quit =>
    simp only [update, handleKeyPress, if_neg hne]
    exact ⟨hH, hlen, hc0, hcN, hs0, hsc, hcv, hsb⟩
  | up =>
    simp only [update, handleKeyPress, if_neg hne]
    split_ifs with hcur
    · exact adjustScroll_inv hH hlen h5
        (show (0:Int) ≤ m.cursor - 1 by omega)
        (show m.cursor - 1 ≤ N - 1 by omega)
    · exact ⟨hH, hlen, hc0, hcN, hs0, hsc, hcv, hsb⟩
  | down =>
    simp only [update, handleKeyPress, if_neg hne]
    split_ifs with hcur
    · exact adjustScroll_inv hH hlen h5
        (show (0:Int) ≤ m.cursor + 1 by omega)
        (show m.cursor + 1 ≤ N - 1 by omega)
    · exact ⟨hH, hlen, hc0, hcN, hs0, hsc, hcv, hsb⟩
  | toggle =>
    simp only [update, handleKeyPress, if_neg hne]
    split_ifs with hcur
    · refine ⟨hH, ?_, hc0, hcN, hs0, hsc, hcv, hsb⟩
      simpa [toggleAt_length] using hlen
    · exact ⟨hH, hlen, hc0, hcN, hs0, hsc, hcv, hsb⟩
  | pgup =>
    simp only [update, handleKeyPress, if_neg hne]
    exact adjustScroll_inv hH hlen h5
      (show (0:Int) ≤ (if m.cursor - 10 < 0 then 0 else m.cursor - 10) by
        split_ifs <;> omega)
      (show (if m.cursor - 10 < 0 then (0:Int) else m.cursor - 10) ≤ N - 1 by
        split_ifs <;> omega)
  | pgdown =>
    simp only [update, handleKeyPress, if_neg hne]
    exact adjustScroll_inv hH hlen h5
      (show (0:Int) ≤ (if m.cursor + 10 ≥ (m.entries.length : Int) then
          (m.entries.length : Int) - 1 else m.cursor + 10) by
        split_ifs <;> omega)
      (show (if m.cursor + 10 ≥ (m.entries.length : Int) then
          (m.entries.length : Int) - 1 else m.cursor + 10) ≤ N - 1 by
        split_ifs <;> omega)
  | home =>
    simp only [update, handleKeyPress, if_neg hne]
    exact adjustScroll_inv hH hlen h5
      (show (0:Int) ≤ (0:Int) by omega)
      (show (0:Int) ≤ N - 1 by omega)
  | ekey =>
    simp only [update, handleKeyPress, if_neg hne]
    exact adjustScroll_inv hH hlen h5
      (show (0:Int) ≤ (m.entries.length : Int) - 1 by omega)
      (show (m.entries.length : Int) - 1 ≤ N - 1 by omega)
  | other =>
    simp only [update, handleKeyPress, if_neg hne]
    exact ⟨hH, hlen, hc0, hcN, hs0, hsc, hcv, hsb⟩

theorem afterEach_of_inv {N H : Int} (h5 : 5 ≤ H) :
    ∀ (ks : List Key) (m : Model), StateInv N H m →
      afterEachKey (cursorVisible N H) m ks = true
  | [], _, _ => rfl
  | k :: ks, m, h => by
    have h' := step_inv k h5 h
    simp only [afterEachKey, Bool.and_eq_true]
    exact ⟨cursorVisible_of_inv h5 h', afterEach_of_inv h5 ks _ h'⟩

/-- A sample entry used for concrete states. -/
def e0 : Entry :=
  { date := "2024-01-01", path := "/v/2024-01-01.md", title := "t",
    preview := [], expanded := false }

/-- Claim C1, as frozen, fails when the viewport height is too small for a
single visible row: with one entry and viewport height 4 the visibility
window `[scrollOffset, scrollOffset + max 0 (H-4))` is empty, so after the
very first event (a MoveUp, which leaves the state at cursor 0, scroll 0)
the cursor is not visible. -/
theorem C1_counterexample :
    afterEachKey (cursorVisible 1 4) (initBrowser [e0] 4) [Key.up] = false := by
  decide

/-- Claim C1 (amended: the viewport height must be at least 5, so that at
least one row is visible): for every entry list of length N ≥ 1 loaded
into a browser state with fixed viewport height H ≥ 5, after each
navigation event of any finite sequence applied from the freshly-loaded
state, the cursor is visible (`scrollOffset ≤ cursorIndex <
scrollOffset + max 0 (H-4)`) and `scrollOffset` never exceeds
`max 0 (N - max 0 (H-4))`. -/
theorem C1_scroll_invariant (es : List Entry) (H : Int) (ks : List Key)
    (hN : 1 ≤ es.length) (hH : 5 ≤ H) (_hnav : ∀ k ∈ ks, k ∈ navKeys) :
    afterEachKey (cursorVisible (es.length : Int) H) (initBrowser es H) ks = true := by
  apply afterEach_of_inv hH
  refine ⟨rfl, rfl, le_refl 0, ?_, le_refl 0, le_refl 0, ?_, ?_⟩
  · show (0:Int) ≤ (es.length : Int) - 1; omega
  · show (0:Int) < 0 + (H - 4); omega
  · show (0:Int) ≤ max ((es.length : Int) - (H - 4)) 0; omega

theorem C1_scroll_invariant_witness :
    afterEachKey (cursorVisible (([e0, e0, e0] : List Entry).length : Int) 6)
      (initBrowser [e0, e0, e0] 6)
      [Key.down, Key.ekey, Key.toggle, Key.up, Key.pgdown, Key.home, Key.pgup] = true :=
  C1_scroll_invariant [e0, e0, e0] 6
    [Key.down, Key.ekey, Key.toggle, Key.up, Key.pgdown, Key.home, Key.pgup]
    (by decide) (by decide) (by decide)

/-- A concrete Ready state: five entries, cursor and scroll at the last
entry, viewport height 5 (one visible row).  Reachable from the fresh
state by an End event. -/
def mResize : Model :=
  { entries := [e0, e0, e0, e0, e0], cursor := 4, viewportHeight := 5,
    scrollOffset := 4, quitting := false, loading := false, err := none,
    vaultDir := "", previewLines := 5 }

/-- Claim C6, as frozen, fails: a Resize event does not reclamp the scroll
offset.  Growing the window from height 11 (viewport 5) to height 26
(viewport 20) leaves `scrollOffset = 4`, which exceeds the new bound
`max 0 (5 - 16) = 0`, so the invariant does not hold in the state produced
directly by the resize. -/
theorem C6_counterexample :
    (update mResize (.windowSize 26)).scrollOffset = 4 ∧
    cursorVisible 5 20 (update mResize (.windowSize 26)) = false := by
  decide

/-- Claim C6 (amended): on every Resize(height) event, `viewportHeight`
becomes `height - 6` and every other field — in particular `scrollOffset`
— is left unchanged; no scroll reclamp is performed, so the scroll-bound
invariant can be violated until the next cursor-moving event. -/
theorem C6_resize_no_reclamp (m : Model) (h : Int) :
    update m (.windowSize h) = { m with viewportHeight := h - 6 } := rfl

/-- Claim C8: when the entries list is empty, every key event other than
Quit leaves the state completely unchanged, and Quit only sets the
quitting flag. -/
theorem C8_empty_guard (m : Model) (hm : m.entries = []) :
    (∀ k : Key, k ≠ Key.quit → update m (.key k) = m) ∧
    update m (.key .quit) = { m with quitting := true } := by
  have hne : m.entries.length = 0 := by simp [hm]
  constructor
  · intro k hk
    cases k <;> simp only [update, handleKeyPress, if_pos hne]
    exact absurd rfl hk
  · simp only [update, handleKeyPress, if_pos hne]

/-- The initial model of the browser: empty entries, loading. -/
def mEmpty : Model := NewModel "/v" 5

theorem C8_empty_guard_witness :
    update mEmpty (.key .up) = mEmpty ∧
    update mEmpty (.key .quit) = { mEmpty with quitting := true } :=
  ⟨(C8_empty_guard mEmpty rfl).1 Key.up (by decide), (C8_empty_guard mEmpty rfl).2⟩

/-- Claim C10: a MoveUp at cursor 0 and a MoveDown at cursor
`len(entries) - 1` each leave the entire state unchanged — in particular
no scroll reclamp runs, so a stale scroll offset is not corrected by these
boundary events. -/
theorem C10_boundary_noop (m : Model) :
    (m.cursor = 0 → update m (.key .up) = m) ∧
    (m.entries ≠ [] → m.cursor = (m.entries.length : Int) - 1 →
      update m (.key .down) = m) := by
  constructor
  · intro h0
    by_cases hl : m.entries.length = 0
    · simp only [update, handleKeyPress, if_pos hl]
    · simp only [update, handleKeyPress, if_neg hl]
      rw [if_neg (by omega)]
  · intro hne hc
    have hl : ¬ (m.entries.length = 0) := by
      simpa using fun h => hne (List.length_eq_zero.mp h)
    simp only [update, handleKeyPress, if_neg hl]
    rw [if_neg (by omega)]

theorem C10_boundary_noop_witness :
    update (initBrowser [e0] 20) (.key .up) = initBrowser [e0] 20 ∧
    update (initBrowser [e0] 20) (.key .down) = initBrowser [e0] 20 :=
  ⟨(C10_boundary_noop (initBrowser [e0] 20)).1 rfl,
   (C10_boundary_noop (initBrowser [e0] 20)).2 (by decide) (by decide)⟩

/-! ## The vault store (`src/unnamed/part_001`, package `vault`) -/

/-- A node of the modelled file system: a regular file with its content,
or a directory. -/
inductive FsNode where
  | file (content : String)
  | directory
  deriving Repr, DecidableEq

/-- The file system, as a map from absolute paths to nodes.  `os.Stat`
succeeds exactly on the paths mapped to `some` node. -/
def Fs : Type := String → Option FsNode

/-- `Vault.DatePath`: `filepath.Join(v.Directory, date + ".md")`.  For an
absolute directory without a trailing slash and a date without path
separators (the only way the program calls it), `Join` is plain
concatenation with `/`. -/
def DatePath (dir date : String) : String := dir ++ "/" ++ date ++ ".md"

/-- `Vault.EntryExists`: `os.Stat(path)` succeeds (any node — the source
checks only `err == nil`); every failure, including absence, yields
`false`. -/
def EntryExists (fs : Fs) (dir date : String) : Bool :=
  (fs (DatePath dir date)).isSome

/-- `Vault.WriteEntry`: overwrite (or create) the regular file at the
date's path with the given content.  I/O failure is not modelled: the
model's write always succeeds. -/
def WriteEntry (fs : Fs) (dir date content : String) : Fs :=
  fun p => if p = DatePath dir date then some (.file content) else fs p

/-- `Vault.CreateEntry`: fail when the entry already exists, otherwise
write the template `"# " ++ date ++ "\n\n"` (the rendering of
`fmt.Sprintf("# %s\n\n", date)`).  The returned pair is (result, file
system after the call). -/
def CreateEntry (fs : Fs) (dir date : String) : Except String Unit × Fs :=
  if EntryExists fs dir date then
    (.error ("entry " ++ date ++ " already exists"), fs)
  else
    (.ok (), WriteEntry fs dir date ("# " ++ date ++ "\n\n"))

/-- Claim C7: if a file for `d` exists, `CreateEntry d` fails with an
already-exists error and leaves the file system — in particular the
existing file's content — unchanged; if no file for `d` exists, it
succeeds and the file's content afterwards is exactly
`"# " ++ d ++ "\n\n"`. -/
theorem C7_create_entry (fs : Fs) (dir d : String) :
    (EntryExists fs dir d = true →
      CreateEntry fs dir d = (.error ("entry " ++ d ++ " already exists"), fs)) ∧
    (EntryExists fs dir d = false →
      (CreateEntry fs dir d).1 = .ok () ∧
      (CreateEntry fs dir d).2 (DatePath dir d) = some (.file ("# " ++ d ++ "\n\n"))) := by
  constructor
  · intro h
    simp only [CreateEntry, if_pos h]
  · intro h
    simp [CreateEntry, h, WriteEntry]

/-- A one-file file system: an existing entry for 2024-01-15 with content
`"old"`. -/
def fsOne : Fs :=
  fun p => if p = "/v/2024-01-15.md" then some (.file "old") else none

theorem C7_create_entry_witness :
    CreateEntry fsOne "/v" "2024-01-15" =
      (.error ("entry " ++ "2024-01-15" ++ " already exists"), fsOne) ∧
    (CreateEntry fsOne "/v" "2024-01-16").1 = .ok () ∧
    (CreateEntry fsOne "/v" "2024-01-16").2 (DatePath "/v" "2024-01-16") =
      some (.file ("# " ++ "2024-01-16" ++ "\n\n")) :=
  ⟨(C7_create_entry fsOne "/v" "2024-01-15").1 (by decide),
   (C7_create_entry fsOne "/v" "2024-01-16").2 (by decide)⟩

/-- Whether a regular file sits at `path`. -/
def regularFileAt (fs : Fs) (path : String) : Bool :=
  match fs path with
  | some (.file _) => true
  | _ => false

/-- A file system whose only node is a *directory* named like an entry
file. -/
def fsDir : Fs :=
  fun p => if p = "/v/2024-01-15.md" then some .directory else none

/-- Claim C9, as frozen, fails: `EntryExists` only checks that `os.Stat`
succeeds, so a directory at the entry path also counts.  On a file system
with a directory at `/v/2024-01-15.md`, `EntryExists` returns `true`
although no regular file exists there. -/
theorem C9_counterexample :
    EntryExists fsDir "/v" "2024-01-15" = true ∧
    regularFileAt fsDir (DatePath "/v" "2024-01-15") = false := by
  decide

/-- Claim C9 (amended): `EntryExists d` returns true iff `os.Stat`
succeeds at `DatePath d`, i.e. iff any file-system node — regular file or
directory — exists there; a missing file yields `false` without raising,
and every stat failure yields `false`. -/
theorem C9_entry_exists (fs : Fs) (dir date : String) :
    EntryExists fs dir date = true ↔ (fs (DatePath dir date)).isSome := by
  simp [EntryExists]

/-! ## Date validation and entry enumeration (`vault.isValidDateFormat`,
`vault.ListEntries`) -/

/-- ASCII digit. -/
def isDig (c : Char) : Bool := '0' ≤ c && c ≤ '9'

/-- Numeric value of an ASCII digit. -/
def digVal (c : Char) : Nat := c.toNat - '0'.toNat

/-- Gregorian leap-year rule (Go `time.isLeap`). -/
def isLeap (y : Nat) : Bool := y % 4 = 0 && (y % 100 ≠ 0 || y % 400 = 0)

/-- Days in a month (Go `time.daysIn`). -/
def daysIn (mo y : Nat) : Nat :=
  if mo = 2 then (if isLeap y then 29 else 28)
  else if mo = 4 || mo = 6 || mo = 9 || mo = 11 then 30
  else 31

/-- The eight date characters are digits and denote a real Gregorian
calendar date: month in 1..12, day in 1..daysIn(month, year). -/
def validYMD (y1 y2 y3 y4 m1 m2 d1 d2 : Char) : Bool :=
  isDig y1 && isDig y2 && isDig y3 && isDig y4 &&
  isDig m1 && isDig m2 && isDig d1 && isDig d2 &&
  (let y := ((digVal y1 * 10 + digVal y2) * 10 + digVal y3) * 10 + digVal y4
   let mo := digVal m1 * 10 + digVal m2
   let d := digVal d1 * 10 + digVal d2
   decide (1 ≤ mo) && decide (mo ≤ 12) && decide (1 ≤ d) && decide (d ≤ daysIn mo y))

/-- Models Go `time.Parse("2006-01-02", s)` succeeding: the layout's
fields are fixed-width (a four-digit year and zero-padded two-digit month
and day, separated by literal dashes), the whole input must be consumed,
and the parsed month and day must be in range for the Gregorian calendar
(Go returns "month out of range" / "day out of range" otherwise). -/
def goDateParses (l : List Char) : Bool :=
  match l with
  | [y1, y2, y3, y4, h1, m1, m2, h2, d1, d2] =>
    h1 = '-' && h2 = '-' && validYMD y1 y2 y3 y4 m1 m2 d1 d2
  | _ => false

/-- `vault.isValidDateFormat` (src/unnamed/part_001:264-271): the filename
must end in `.md` and the part before the extension must be accepted by
`time.Parse("2006-01-02", ·)`. -/
def isValidDateFormat (filename : String) : Bool :=
  if goHasSuf filename ".md" then goDateParses (goTrimSuf filename ".md").data
  else false

/-- One child of the journal directory, as `os.ReadDir` reports it. -/
structure DirEntry where
  name : String
  isDir : Bool
  deriving Repr, DecidableEq

/-- Insert a name into a descending-sorted list. -/
def insertDesc (x : String) : List String → List String
  | [] => [x]
  | y :: ys => if goLess x y then y :: insertDesc x ys else x :: y :: ys

/-- Sort names in descending byte-lexicographic order.  Models the
`sort.Slice(mdFiles, func(i, j) { return mdFiles[i] > mdFiles[j] })` call:
`sort.Slice` guarantees the result is ordered by the comparator, and for
the duplicate-free name lists a directory produces that ordering is
unique, so any correct sort computes it. -/
def sortDesc : List String → List String
  | [] => []
  | x :: xs => insertDesc x (sortDesc xs)

/-- `vault.ListEntries` (src/unnamed/part_001:219-242): skip directories,
keep names ending in `.md` that validate as dates, sort newest first. -/
def ListEntries (dir : List DirEntry) : List String :=
  let mdFiles :=
    (dir.filter (fun e => !e.isDir && goHasSuf e.name ".md" && isValidDateFormat e.name)).map
      (fun e => e.name)
  sortDesc mdFiles

/-- The entry-filename shape of claim C2, from the spec's words: exactly
ten characters of zero-padded `YYYY-MM-DD` that denote a real Gregorian
calendar date, followed by exactly the `.md` extension. -/
def specEntryName (s : String) : Bool :=
  goDateParses (s.data.take 10) && decide (s.data.drop 10 = ['.', 'm', 'd'])

/-! ### Ordering lemmas for the descending sort -/

theorem chLess_asymm : ∀ a b : List Char, chLess a b = true → chLess b a = false := by
  intro a
  induction a with
  | nil => intro b h; cases b <;> simp [chLess] at h ⊢
  | cons x xs ih =>
    intro b h
    cases b with
    | nil => simp [chLess] at h
    | cons y ys =>
      simp only [chLess] at h ⊢
      split_ifs at h ⊢ <;> first | rfl | omega | exact ih ys h

theorem chLess_ge_trans :
    ∀ a b c : List Char, chLess a b = false → chLess b c = false → chLess a c = false := by
  intro a
  induction a with
  | nil =>
    intro b c h1 h2
    cases b <;> cases c <;> simp_all [chLess]
  | cons x xs ih =>
    intro b c h1 h2
    cases b with
    | nil => cases c <;> simp_all [chLess]
    | cons y ys =>
      cases c with
      | nil => simp [chLess]
      | cons z zs =>
        simp only [chLess] at h1 h2 ⊢
        split_ifs at h1 h2 ⊢ <;> first | rfl | omega | exact ih ys zs h1 h2

theorem goLess_asymm (a b : String) (h : goLess a b = true) : goLess b a = false :=
  chLess_asymm a.data b.data h

theorem goLess_ge_trans {a b c : String} (h1 : goLess a b = false)
    (h2 : goLess b c = false) : goLess a c = false :=
  chLess_ge_trans a.data b.data c.data h1 h2

theorem mem_insertDesc {a x : String} :
    ∀ {l : List String}, a ∈ insertDesc x l ↔ a = x ∨ a ∈ l := by
  intro l
  induction l with
  | nil => simp [insertDesc]
  | cons y ys ih =>
    simp only [insertDesc]
    split_ifs
    · simp [ih, List.mem_cons]
      tauto
    · simp [ih, List.mem_cons]

theorem pairwise_insertDesc {x : String} :
    ∀ {l : List String}, l.Pairwise (fun a b => goLess a b = false) →
      (insertDesc x l).Pairwise (fun a b => goLess a b = false) := by
  intro l
  induction l with
  | nil => simp [insertDesc]
  | cons y ys ih =>
    intro h
    rcases List.pairwise_cons.mp h with ⟨hy, hys⟩
    simp only [insertDesc]
    split_ifs with hxy
    · refine List.Pairwise.cons ?_ (ih hys)
      intro w hw
      rcases mem_insertDesc.mp hw with rfl | hw'
      · exact goLess_asymm _ _ hxy
      · exact hy w hw'
    · refine List.Pairwise.cons ?_ h
      intro w hw
      rcases List.mem_cons.mp hw with rfl | hw'
      · simpa using hxy
      · exact goLess_ge_trans (by simpa using hxy) (hy w hw')

theorem sortDesc_pairwise :
    ∀ l : List String, (sortDesc l).Pairwise (fun a b => goLess a b = false) := by
  intro l
  induction l with
  | nil => simp [sortDesc]
  | cons x xs ih => exact pairwise_insertDesc ih

theorem mem_sortDesc {a : String} :
    ∀ {l : List String}, a ∈ sortDesc l ↔ a ∈ l := by
  intro l
  induction l with
  | nil => simp [sortDesc]
  | cons x xs ih => simp [sortDesc, mem_insertDesc, ih]

/-! ### The filename-shape bridge for claim C2 -/

theorem goDateParses_length {l : List Char} (h : goDateParses l = true) :
    l.length = 10 := by
  unfold goDateParses at h
  split at h
  · simp_all
  · exact absurd h (by simp)

theorem specEntryName_len {s : String} (h : specEntryName s = true) :
    s.data.length = 13 := by
  rcases Bool.and_eq_true .. |>.mp h with ⟨h1, h2⟩
  have h10 := goDateParses_length h1
  have hmin : (s.data.take 10).length = min 10 s.data.length :=
    List.length_take 10 s.data
  have hd : s.data.length - 10 = 3 := by
    have hld : (s.data.drop 10).length = s.data.length - 10 :=
      List.length_drop 10 s.data
    rw [of_decide_eq_true h2] at hld
    exact hld.symm
  omega

theorem specEntryName_suffix {s : String} (h : specEntryName s = true) :
    goHasSuf s ".md" = true := by
  rcases Bool.and_eq_true .. |>.mp h with ⟨h1, h2⟩
  have hn := specEntryName_len h
  have hdrop : s.data.drop 10 = ['.', 'm', 'd'] := of_decide_eq_true h2
  simp only [goHasSuf, Bool.and_eq_true, decide_eq_true_eq]
  constructor
  · rw [hn]; decide
  · have h103 : s.data.length - (".md" : String).data.length = 10 := by
      rw [hn]; rfl
    rw [h103, hdrop]

/-- The vault's date-filename check accepts exactly the names of claim
C2's shape. -/
theorem isValidDateFormat_eq_spec (s : String) :
    isValidDateFormat s = specEntryName s := by
  have hmd : (".md" : String).data = ['.', 'm', 'd'] := rfl
  by_cases hsuf : goHasSuf s ".md" = true
  · have h3 : 3 ≤ s.data.length ∧ s.data.drop (s.data.length - 3) = ['.', 'm', 'd'] := by
      rcases Bool.and_eq_true .. |>.mp hsuf with ⟨ha, hb⟩
      exact ⟨by simpa [hmd] using of_decide_eq_true ha,
             by simpa [hmd] using of_decide_eq_true hb⟩
    obtain ⟨hge, hdrop⟩ := h3
    have hlhs : isValidDateFormat s = goDateParses (s.data.take (s.data.length - 3)) := by
      simp only [isValidDateFormat, if_pos hsuf, goTrimSuf, hsuf, if_pos]
      simp [hmd]
    by_cases h13 : s.data.length = 13
    · have ht : s.data.length - 3 = 10 := by omega
      have hdr : s.data.drop 10 = ['.', 'm', 'd'] := by rw [← ht]; exact hdrop
      rw [hlhs, ht]
      simp [specEntryName, hdr]
    · -- the name cannot have the 13-character shape
      have hlen : (s.data.take (s.data.length - 3)).length ≠ 10 := by
        simp only [List.length_take]
        omega
      have hfalse : goDateParses (s.data.take (s.data.length - 3)) = false := by
        cases hgd : goDateParses (s.data.take (s.data.length - 3))
        · rfl
        · exact absurd (goDateParses_length hgd) hlen
      rw [hlhs, hfalse]
      cases hspec : specEntryName s
      · rfl
      · exact absurd (specEntryName_len hspec) h13
  · have hlhs : isValidDateFormat s = false := by
      simp only [isValidDateFormat]
      rw [if_neg hsuf]
    cases hspec : specEntryName s
    · rw [hlhs]
    · exact absurd (specEntryName_suffix hspec) hsuf

/-- Claim C2: among a directory's non-directory children, `ListEntries`
includes a name iff it is zero-padded `YYYY-MM-DD.md` (exactly ten
characters before the extension) whose date part is a real Gregorian
calendar date; in particular `2024-02-29.md` is accepted while
`2023-02-29.md`, `2024-13-01.md`, `2024-1-5.md` and `README.md` are
rejected. -/
theorem C2_entry_filter (dir : List DirEntry) (s : String)
    (hs : DirEntry.mk s false ∈ dir) :
    (s ∈ ListEntries dir ↔ specEntryName s = true) ∧
    specEntryName "2024-02-29.md" = true ∧
    specEntryName "2023-02-29.md" = false ∧
    specEntryName "2024-13-01.md" = false ∧
    specEntryName "2024-1-5.md" = false ∧
    specEntryName "README.md" = false := by
  refine ⟨?_, by decide, by decide, by decide, by decide, by decide⟩
  simp only [ListEntries]
  constructor
  · intro hmem
    rcases List.mem_map.mp (mem_sortDesc.mp hmem) with ⟨e, he, rfl⟩
    rcases List.mem_filter.mp he with ⟨-, hp⟩
    rcases Bool.and_eq_true .. |>.mp hp with ⟨-, hv⟩
    rwa [isValidDateFormat_eq_spec] at hv
  · intro hspec
    apply mem_sortDesc.mpr
    refine List.mem_map.mpr ⟨DirEntry.mk s false, List.mem_filter.mpr ⟨hs, ?_⟩, rfl⟩
    simp only [Bool.and_eq_true]
    refine ⟨⟨rfl, specEntryName_suffix hspec⟩, ?_⟩
    rw [isValidDateFormat_eq_spec]
    exact hspec

theorem C2_entry_filter_witness :
    ("2024-02-29.md" ∈ ListEntries [DirEntry.mk "2024-02-29.md" false] ↔
      specEntryName "2024-02-29.md" = true) ∧
    specEntryName "2024-02-29.md" = true ∧
    specEntryName "2023-02-29.md" = false ∧
    specEntryName "2024-13-01.md" = false ∧
    specEntryName "2024-1-5.md" = false ∧
    specEntryName "README.md" = false :=
  C2_entry_filter [DirEntry.mk "2024-02-29.md" false] "2024-02-29.md" (by decide)

/-- The directory listing of claim C3's concrete example. -/
def exampleDir : List DirEntry :=
  [DirEntry.mk "2024-01-10.md" false, DirEntry.mk "2024-01-20.md" false,
   DirEntry.mk "2024-01-15.md" false, DirEntry.mk "not-a-date.md" false,
   DirEntry.mk "readme.md" false]

/-- Claim C3: the sequence returned by `ListEntries` is always sorted in
descending byte-lexicographic order of the filenames (each name is ≥ every
later one, i.e. never less), and on the example directory it returns
exactly the three valid names, newest first. -/
theorem C3_sorted_descending (dir : List DirEntry) :
    (ListEntries dir).Pairwise (fun a b => goLess a b = false) ∧
    ListEntries exampleDir =
      ["2024-01-20.md", "2024-01-15.md", "2024-01-10.md"] :=
  ⟨sortDesc_pairwise _, by decide⟩

/-! ## Title and preview extraction (`src/tui/model.go:201-229`, claim C4) -/

/-- The heading scan of `extractTitleAndPreview`: the first line whose
trimmed text has the prefix `"# "` yields the title (text after the
prefix, trimmed) and its line index; scanning stops at the first match. -/
def findHeading : List String → Option (String × Nat)
  | [] => none
  | l :: ls =>
    let t := goTrimSpace l
    if goHasPre t "# " then some (goTrimSpace (goDropChars t 2), 0)
    else
      match findHeading ls with
      | none => none
      | some (ttl, i) => some (ttl, i + 1)

/-- The preview loop of `extractTitleAndPreview`: collect a line when it
is non-blank or something was already collected, until `previewLines`
lines are collected or input ends. -/
def collectPreview (previewLines : Int) : List String → Int → List String
  | [], _ => []
  | l :: ls, count =>
    if count < previewLines then
      if goTrimSpace l ≠ "" ∨ 0 < count then
        l :: collectPreview previewLines ls (count + 1)
      else
        collectPreview previewLines ls count
    else []

/-- `extractTitleAndPreview` (src/tui/model.go:201-229). -/
def extractTitleAndPreview (content : String) (previewLines : Int) :
    String × List String :=
  let lines := goSplitNL content
  match findHeading lines with
  | some (t, i) => (t, collectPreview previewLines (lines.drop (i + 1)) 0)
  | none => ("(untitled)", collectPreview previewLines lines 0)

/-- A blank line: its trimmed text is empty. -/
def isBlank (l : String) : Bool := goTrimSpace l == ""

/-- A heading line: its trimmed text has the prefix `"# "`. -/
def isHeading (l : String) : Bool := goHasPre (goTrimSpace l) "# "

/-- The preview of claim C4, in the spec's words: starting from the given
lines, blank lines are skipped while nothing has been collected, then up
to `previewLines` lines are taken, blanks included. -/
def specPreview (lines : List String) (previewLines : Int) : List String :=
  (lines.dropWhile isBlank).take previewLines.toNat

/-- The title the claim specifies for heading index `i`: the text of the
line after the `"# "` prefix of its trimmed form, trimmed. -/
def titleAt (lines : List String) (i : Nat) : String :=
  goTrimSpace (goDropChars (goTrimSpace (lines.getD i "")) 2)

theorem collectPreview_stop {p c : Int} (h : ¬ c < p) :
    ∀ xs : List String, collectPreview p xs c = [] := by
  intro xs
  cases xs with
  | nil => rfl
  | cons l ls => simp [collectPreview, h]

theorem collectPreview_started {p : Int} :
    ∀ (xs : List String) (c : Int), 0 < c →
      collectPreview p xs c = xs.take (p - c).toNat := by
  intro xs
  induction xs with
  | nil => intro c _; simp [collectPreview]
  | cons l ls ih =>
    intro c hc
    by_cases hcp : c < p
    · rw [collectPreview, if_pos hcp, if_pos (Or.inr hc)]
      rw [ih (c + 1) (by omega)]
      rw [show (p - c).toNat = (p - (c + 1)).toNat + 1 from by omega]
      rw [List.take_succ_cons]
    · rw [collectPreview, if_neg hcp]
      rw [show (p - c).toNat = 0 from by omega]
      rfl

theorem collectPreview_eq_spec (p : Int) :
    ∀ xs : List String, collectPreview p xs 0 = specPreview xs p := by
  intro xs
  induction xs with
  | nil => simp [collectPreview, specPreview]
  | cons l ls ih =>
    by_cases hp : (0:Int) < p
    · by_cases hb : isBlank l
      · have hbl : ¬ (goTrimSpace l ≠ "" ∨ (0:Int) < 0) := by
          simp only [isBlank, beq_iff_eq] at hb
          simp [hb]
        rw [collectPreview, if_pos hp, if_neg hbl, ih]
        simp [specPreview, List.dropWhile_cons, hb]
      · have hbl : goTrimSpace l ≠ "" ∨ (0:Int) < 0 := by
          simp only [isBlank, beq_iff_eq] at hb
          exact Or.inl hb
        rw [collectPreview, if_pos hp, if_pos hbl,
            collectPreview_started ls (0 + 1) (by omega)]
        rw [specPreview, List.dropWhile_cons_of_neg hb]
        rw [show p.toNat = (p - 1).toNat + 1 from by omega]
        rw [List.take_succ_cons]
        norm_num
    · rw [collectPreview_stop hp, specPreview,
          show p.toNat = 0 from by omega]
      simp

theorem findIdx?_shift (p : String → Bool) :
    ∀ (xs : List String) (n : Nat),
      List.findIdx? p xs n = (List.findIdx? p xs 0).map (fun i => i + n) := by
  intro xs
  induction xs with
  | nil => intro n; rfl
  | cons x l ih =>
    intro n
    rw [List.findIdx?_cons, List.findIdx?_cons]
    by_cases hx : p x
    · simp [hx]
    · simp only [hx, Bool.false_eq_true, if_false]
      rw [ih (n + 1), ih 1]
      cases List.findIdx? p l 0 <;> simp
      omega

theorem findHeading_eq :
    ∀ xs : List String,
      findHeading xs = (xs.findIdx? isHeading).map (fun i => (titleAt xs i, i)) := by
  intro xs
  induction xs with
  | nil => rfl
  | cons l ls ih =>
    rw [List.findIdx?_cons]
    by_cases hp : isHeading l
    · rw [findHeading, if_pos (by simpa [isHeading] using hp)]
      simp [hp, titleAt]
    · rw [findHeading, if_neg (by simpa [isHeading] using hp)]
      simp only [hp, Bool.false_eq_true, if_false]
      rw [findIdx?_shift isHeading ls 1, ih]
      cases List.findIdx? isHeading ls 0 <;> simp [titleAt]

/-- Claim C4: for every content string and preview line count, the
extracted title is the trimmed text after the first heading line (or
`"(untitled)"` when there is none), and the preview collects lines from
after the heading (from line 0 when there is none), skipping blanks only
while nothing has been collected, stopping at `previewLines` lines; and
`"# Title\n\n\nFirst\n\nSecond"` with 3 preview lines yields the preview
`["First", "", "Second"]`. -/
theorem C4_title_preview (content : String) (p : Int) :
    (match (goSplitNL content).findIdx? isHeading with
     | some i =>
       extractTitleAndPreview content p =
         (titleAt (goSplitNL content) i,
          specPreview ((goSplitNL content).drop (i + 1)) p)
     | none =>
       extractTitleAndPreview content p =
         ("(untitled)", specPreview (goSplitNL content) p)) ∧
    extractTitleAndPreview "# Title\n\n\nFirst\n\nSecond" 3 =
      ("Title", ["First", "", "Second"]) := by
  refine ⟨?_, by decide⟩
  simp only [extractTitleAndPreview]
  rw [findHeading_eq]
  cases h : (goSplitNL content).findIdx? isHeading with
  | none => simp [collectPreview_eq_spec]
  | some i => simp [collectPreview_eq_spec]

/-! ## The renderer (`src/tui/view.go`, claim C5) -/

/-- One rendered entry row, abstracted from the ANSI styling: the date and
title shown on the row line, whether the row is highlighted as selected,
and the preview lines actually written under it. -/
structure RenderedRow where
  date : String
  title : String
  selected : Bool
  previewShown : List String
  deriving Repr, DecidableEq

/-- `Model.renderEntry` (src/tui/view.go:86-116): the row shows the
entry's date and title, is highlighted when selected, and emits the
non-blank preview lines when the entry is expanded and has a preview. -/
def renderEntry (e : Entry) (selected : Bool) : RenderedRow :=
  { date := e.date, title := e.title, selected := selected,
    previewShown :=
      if e.expanded && decide (0 < e.preview.length) then
        e.preview.filter (fun l => !(isBlank l))
      else [] }

/-- `Model.visibleRange` (src/tui/view.go:120-129): `start` is the scroll
offset, `end` is `start + viewportHeight - 4` clamped to the last index. -/
def visibleRange (m : Model) : Int × Int :=
  let start := m.scrollOffset
  let e := start + m.viewportHeight - 4
  (start, if e ≥ (m.entries.length : Int) then (m.entries.length : Int) - 1 else e)

/-- The indices the `View` loop visits
(`for i := start; i <= end && i < len(m.entries); i++`), as the sublist of
`0, ..., len-1` lying between `start` and `end`.  For a negative `start`
the source would address a negative index and panic; in the states the
program reaches `scrollOffset ≥ 0` always holds, and there the two
agree. -/
def viewIndices (m : Model) : List Nat :=
  (List.range m.entries.length).filter
    (fun i => decide ((visibleRange m).1 ≤ (i : Int)) &&
      decide ((i : Int) ≤ (visibleRange m).2))

/-- The rendered frame, abstracted from styling. -/
inductive Frame where
  | errorLine (msg : String)
  | loadingLine
  | emptyHint
  | timeline (rows : List RenderedRow)
  deriving Repr, DecidableEq

/-- The zero value `getD` falls back to; never actually selected because
`viewIndices` only produces in-range indices. -/
def blankEntry : Entry :=
  { date := "", path := "", title := "", preview := [], expanded := false }

/-- `Model.View` (src/tui/view.go:50-82): error line when `err` is set,
loading message while loading, empty-state hint without entries, otherwise
the title block, one rendered row per visible index (highlighted at the
cursor), and the help line. -/
def view (m : Model) : Frame :=
  match m.err with
  | some e => .errorLine ("Error: " ++ e)
  | none =>
    if m.loading then .loadingLine
    else if m.entries.length = 0 then .emptyHint
    else
      .timeline ((viewIndices m).map
        (fun i => renderEntry (m.entries.getD i blankEntry)
          (decide ((i : Int) = m.cursor))))

/-- The row-index range claim C5 asserts, from the spec's words:
`[scrollOffset, min(scrollOffset + visibleHeight, len(entries)) - 1]` with
`visibleHeight = viewportHeight - 4`. -/
def claimIndices (m : Model) : List Nat :=
  (List.range m.entries.length).filter
    (fun i => decide (m.scrollOffset ≤ (i : Int)) &&
      decide ((i : Int) ≤
        min (m.scrollOffset + (m.viewportHeight - 4)) (m.entries.length : Int) - 1))

/-- A Ready state with six entries, cursor 0, scroll 0 and viewport
height 8 (visible height 4). -/
def mView : Model :=
  { entries := [e0, e0, e0, e0, e0, e0], cursor := 0, viewportHeight := 8,
    scrollOffset := 0, quitting := false, loading := false, err := none,
    vaultDir := "", previewLines := 5 }

/-- Claim C5, as frozen, fails: the `View` loop's upper bound is the
*inclusive* index `start + (viewportHeight-4)` clamped to `len-1`, so with
six entries, scroll 0 and visible height 4 the frame has five rows
(indices 0..4), one more than the claimed range
`[scrollOffset, min(scrollOffset + visibleHeight, len) - 1]` = 0..3. -/
theorem C5_counterexample :
    viewIndices mView = [0, 1, 2, 3, 4] ∧
    claimIndices mView = [0, 1, 2, 3] ∧
    view mView ≠
      Frame.timeline ((claimIndices mView).map
        (fun i => renderEntry (mView.entries.getD i blankEntry)
          (decide ((i : Int) = mView.cursor)))) := by
  decide

/-- Claim C5 (amended): in the Ready phase with entries, the frame is the
timeline of exactly one row per index in the *inclusive* range
`[scrollOffset, min(scrollOffset + visibleHeight, len(entries) - 1)]`
(up to `visibleHeight + 1` rows), in increasing index order; each row
shows its entry's date and title, is highlighted exactly when its index
equals `cursorIndex`, and emits exactly the non-blank preview lines when
its entry is expanded and nothing otherwise. -/
theorem C5_view_rows (m : Model) (hl : m.loading = false) (he : m.err = none)
    (hne : m.entries ≠ []) :
    view m =
      Frame.timeline ((viewIndices m).map
        (fun i => renderEntry (m.entries.getD i blankEntry)
          (decide ((i : Int) = m.cursor)))) ∧
    (∀ i : Nat, i ∈ viewIndices m ↔
      (m.scrollOffset ≤ (i : Int) ∧
       (i : Int) ≤ min (m.scrollOffset + (m.viewportHeight - 4))
         ((m.entries.length : Int) - 1))) ∧
    (viewIndices m).Pairwise (· < ·) ∧
    (∀ (e : Entry) (s : Bool), renderEntry e s =
      { date := e.date, title := e.title, selected := s,
        previewShown :=
          if e.expanded then e.preview.filter (fun l => !(isBlank l)) else [] }) := by
  have hlen : m.entries.length ≠ 0 := fun h => hne (List.length_eq_zero.mp h)
  refine ⟨?_, ?_, ?_, ?_⟩
  · rw [view, he]
    simp only [hl, Bool.false_eq_true, if_false, hlen, if_false]
  · intro i
    simp only [viewIndices, List.mem_filter, List.mem_range, Bool.and_eq_true,
      decide_eq_true_eq, visibleRange]
    split_ifs <;> omega
  · exact List.Pairwise.sublist (List.filter_sublist _) (List.pairwise_lt_range _)
  · intro e s
    rw [renderEntry]
    cases hx : e.expanded
    · simp
    · cases hp : e.preview
      · simp
      · simp

theorem C5_view_rows_witness :
    view mView =
      Frame.timeline ((viewIndices mView).map
        (fun i => renderEntry (mView.entries.getD i blankEntry)
          (decide ((i : Int) = mView.cursor)))) ∧
    (4 ∈ viewIndices mView ↔
      (mView.scrollOffset ≤ (4 : Int) ∧
       (4 : Int) ≤ min (mView.scrollOffset + (mView.viewportHeight - 4))
         ((mView.entries.length : Int) - 1))) :=
  ⟨(C5_view_rows mView rfl rfl (by decide)).1,
   (C5_view_rows mView rfl rfl (by decide)).2.1 4⟩

end Logmd
